import Mathlib

/-!
Shallow embedding of the core of `src/server.js` (zet-display): the
live-delay feed cache (`getLiveFeed`), the calendar resolver
(`getActiveServiceIds`), the station clusterer and the departure-board
composer (`/api/board`), together with the nearest-station scan
(`/api/nearest`).  JavaScript objects used as string-keyed maps are
modelled as association lists with overwrite-on-assign semantics;
JavaScript numbers are modelled as `Int` (and `ℚ` where the code divides),
`undefined` as `Option.none`, and the truthiness tests actually performed
by the code are modelled explicitly.
-/

namespace ZetDisplay

/-- Decoded realtime stop-time event (`departure` / `arrival` message):
the `delay` field is optional in the feed. -/
structure StopTimeEvent where
  delay : Option Int
  deriving DecidableEq, Repr

/-- Decoded realtime stop-time update, carrying optional departure and
arrival events. -/
structure StopTimeUpdate where
  departure : Option StopTimeEvent
  arrival : Option StopTimeEvent
  deriving DecidableEq, Repr

/-- Decoded trip update: a trip id and the ordered stop-time update list. -/
structure TripUpdate where
  tripId : String
  stopTimeUpdate : List StopTimeUpdate
  deriving DecidableEq, Repr

/-- Feed entity, optionally carrying a trip update. -/
structure Entity where
  tripUpdate : Option TripUpdate
  deriving DecidableEq, Repr

/-- Optional-chaining access `e?.delay`. -/
def optDelay (e : Option StopTimeEvent) : Option Int :=
  e.bind StopTimeEvent.delay

/-- JavaScript `a || b` on an int-or-undefined left operand: `a` is kept
when it is truthy, i.e. defined and nonzero; otherwise `b` is returned. -/
def jsOrD : Option Int → Option Int → Option Int
  | some v, b => if v = 0 then b else some v
  | none, b => b

/-- Embeds `stu.departure?.delay || stu.arrival?.delay || 0` from
`getLiveFeed` (server.js line 426). -/
def extractDelay (stu : StopTimeUpdate) : Int :=
  (jsOrD (optDelay stu.departure) (jsOrD (optDelay stu.arrival) (some 0))).getD 0

/-- Assignment `m[k] = v` on a JS object modelled as an association list:
overwrite the existing binding, else append a new one. -/
def setKey (m : List (String × Int)) (k : String) (v : Int) : List (String × Int) :=
  if m.any (fun p => p.1 == k) then
    m.map (fun p => if p.1 == k then (k, v) else p)
  else m ++ [(k, v)]

/-- Property read `m[k]` on a JS object modelled as an association list;
`none` plays the role of `undefined`. -/
def lookupKey (m : List (String × Int)) (k : String) : Option Int :=
  (m.find? (fun p => p.1 == k)).map Prod.snd

/-- One iteration of the `feed.entity.forEach` loop of `getLiveFeed`
(server.js lines 423-428): an entity writes `extractDelay` of its first
stop-time update under its trip id, and contributes nothing when it has
no trip update or an empty stop-time update list. -/
def processEntity (m : List (String × Int)) (e : Entity) : List (String × Int) :=
  match e.tripUpdate with
  | none => m
  | some tu =>
    match tu.stopTimeUpdate with
    | [] => m
    | stu :: _ => setKey m tu.tripId (extractDelay stu)

/-- The `liveMap` built by `getLiveFeed` from the decoded feed entities. -/
def buildLiveMap (entities : List Entity) : List (String × Int) :=
  entities.foldl processEntity []

/-- Mutable module state read and written by `getLiveFeed`:
`cachedLiveData` (`null` initially) and `lastLiveFetch` (ms timestamp). -/
structure LiveCacheState where
  cachedLiveData : Option (List (String × Int))
  lastLiveFetch : Int
  deriving DecidableEq, Repr

/-- Outcome of the upstream fetch-and-decode step: a decoded entity list,
or a failure (HTTP error, network error or protobuf decode error). -/
inductive FetchOutcome where
  | ok (entities : List Entity)
  | failed
  deriving DecidableEq, Repr

/-- The `try`/`catch` body of `getLiveFeed` (server.js lines 417-432):
on success the fresh map is returned and cached; on failure the bare
`catch (e) { return {}; }` returns an empty map and leaves the cache
state untouched. -/
def fetchStep (st : LiveCacheState) (now : Int) (fetch : FetchOutcome) :
    List (String × Int) × LiveCacheState :=
  match fetch with
  | .ok ents =>
      let m := buildLiveMap ents
      (m, ⟨some m, now⟩)
  | .failed => ([], st)

/-- Embeds `getLiveFeed` (server.js lines 414-433): if a cached map
exists (an empty object is truthy) and is younger than 8000 ms it is
returned without fetching; otherwise the fetch step runs.  The function
returns the delay map together with the updated cache state and never
throws. -/
def getLiveFeed (st : LiveCacheState) (now : Int) (fetch : FetchOutcome) :
    List (String × Int) × LiveCacheState :=
  match st.cachedLiveData with
  | some cached =>
      if now - st.lastLiveFetch < 8000 then (cached, st)
      else fetchStep st now fetch
  | none => fetchStep st now fetch

/-- JavaScript `Math.round` on the exact rational value of its argument:
round half toward positive infinity. -/
def jsMathRound (q : ℚ) : Int := ⌊q + 1 / 2⌋

/-- Integer form of `Math.round(delay / 60)`: the floor of
(2·delay + 60)/120, shown below to agree with `jsMathRound` applied to
the exact quotient delay/60. -/
def jsRoundDiv60 (d : Int) : Int := Int.fdiv (2 * d + 60) 120

/-- Embeds `padStart(2, "0")` applied to a number's decimal string. -/
def pad2 (n : Int) : String :=
  let s := toString n
  if s.length < 2 then "0" ++ s else s

/-- Embeds `minutesToTime` (server.js lines 186-191): floor-divide into
hours (`Math.floor`), truncated remainder for minutes (JS `%`), wrap one
day of hours, zero-pad both fields. -/
def minutesToTime (mins : Int) : String :=
  let h0 := Int.fdiv mins 60
  let m := Int.tmod mins 60
  let h := if h0 ≥ 24 then h0 - 24 else h0
  pad2 h ++ ":" ++ pad2 m

/-- One record of `staticSchedule[station]` as built by
`loadGtfsFilesToMemory` (server.js lines 378-384). -/
structure SchedTrip where
  trip_id : String
  linija : String
  smjer : String
  timeMin : Int
  deriving DecidableEq, Repr

/-- One object pushed onto `board` by the `/api/board` handler
(server.js lines 506-509). -/
structure BoardEntry where
  linija : String
  smjer : String
  min : Int
  time : String
  status : String
  deriving DecidableEq, Repr

/-- Embeds `searchMinutes` of the `/api/board` handler (server.js lines
491-493): the current minute of day, advanced by 1440 before the 04:00
night cutoff. -/
def searchMinutesOf (hour currentMinutes : Int) : Int :=
  if hour < 4 then currentMinutes + 24 * 60 else currentMinutes

/-- Embeds one iteration of the `for (const trip of schedule)` loop of
the `/api/board` handler (server.js lines 496-511): window test on the
scheduled minute, live-delay adjustment with `Math.round(delay / 60)`,
status LIVE exactly when the trip id is a key of the delay map, and the
`minutesUntil >= -2` cutoff. -/
def entryOf (live : List (String × Int)) (searchMinutes : Int)
    (trip : SchedTrip) : Option BoardEntry :=
  if trip.timeMin ≥ searchMinutes - 10 ∧ trip.timeMin ≤ searchMinutes + 90 then
    let fs : Int × String :=
      match lookupKey live trip.trip_id with
      | some d => (trip.timeMin + jsRoundDiv60 d, "LIVE")
      | none => (trip.timeMin, "SCHED")
    let minutesUntil := fs.1 - searchMinutes
    if minutesUntil ≥ -2 then
      some ⟨trip.linija, trip.smjer, minutesUntil, minutesToTime fs.1, fs.2⟩
    else none
  else none

/-- The `board` array accumulated by the handler loop, before sorting
and truncation. -/
def boardRows (schedule : List SchedTrip) (live : List (String × Int))
    (searchMinutes : Int) : List BoardEntry :=
  schedule.filterMap (entryOf live searchMinutes)

/-- Stable insertion of an entry into an already sorted run: the new
entry goes after every existing entry whose key is less than or equal,
which is the order a stable ascending sort produces. -/
def insertByMin (a : BoardEntry) : List BoardEntry → List BoardEntry
  | [] => [a]
  | b :: bs => if b.min ≤ a.min then b :: insertByMin a bs else a :: b :: bs

/-- Embeds `board.sort((a, b) => a.min - b.min)` (server.js line 513):
a stable ascending sort on the `min` field, realised as stable insertion
sort. -/
def sortByMin : List BoardEntry → List BoardEntry
  | [] => []
  | a :: as' => insertByMin a (sortByMin as')

/-- Embeds the tail of the `/api/board` handler (server.js lines
495-514): compose the rows, sort them ascending by `min` and answer with
`board.slice(0, 15)`. -/
def apiBoard (schedule : List SchedTrip) (live : List (String × Int))
    (hour minute : Int) : List BoardEntry :=
  let currentMinutes := hour * 60 + minute
  let searchMinutes := searchMinutesOf hour currentMinutes
  (sortByMin (boardRows schedule live searchMinutes)).take 15

/-- Gregorian calendar date as JavaScript `Date` exposes it in local
time: full year, month 1-12, day of month 1-31. -/
structure Ymd where
  y : Nat
  m : Nat
  d : Nat
  deriving DecidableEq, Repr

/-- Gregorian leap-year rule, as `Date` implements it. -/
def isLeap (y : Nat) : Bool :=
  (y % 4 == 0 && y % 100 != 0) || y % 400 == 0

/-- Days before month `m` in a common year (month 1-12). -/
def cumMonth : Nat → Nat
  | 1 => 0 | 2 => 31 | 3 => 59 | 4 => 90 | 5 => 120 | 6 => 151
  | 7 => 181 | 8 => 212 | 9 => 243 | 10 => 273 | 11 => 304 | 12 => 334
  | _ => 0

/-- Length of month `m` of year `y`. -/
def monthLen (y m : Nat) : Nat :=
  if m = 2 then (if isLeap y then 29 else 28)
  else if m = 4 ∨ m = 6 ∨ m = 9 ∨ m = 11 then 30
  else 31

/-- A structurally valid Gregorian date. -/
def ValidYmd (dt : Ymd) : Prop :=
  1 ≤ dt.y ∧ 1 ≤ dt.m ∧ dt.m ≤ 12 ∧ 1 ≤ dt.d ∧ dt.d ≤ monthLen dt.y dt.m

instance (dt : Ymd) : Decidable (ValidYmd dt) := by
  unfold ValidYmd; infer_instance

/-- Number of leap years strictly before year `y` (proleptic Gregorian,
counting from year 1). -/
def leapsBefore (y : Nat) : Nat :=
  (y - 1) / 4 + (y - 1) / 400 - (y - 1) / 100

/-- Linear day number of a date: days elapsed since January 1 of year 1
(which gets number 0).  Used as the specification-side meaning of
"calendar date minus one day". -/
def toDayNumber (dt : Ymd) : Nat :=
  365 * (dt.y - 1) + leapsBefore dt.y + cumMonth dt.m
    + (if isLeap dt.y ∧ 3 ≤ dt.m then 1 else 0) + (dt.d - 1)

/-- Weekday index of a date in JavaScript `getDay` convention
(0 = Sunday .. 6 = Saturday); January 1 of year 1 is a Monday in the
proleptic Gregorian calendar. -/
def dayOfWeek (dt : Ymd) : Nat := (toDayNumber dt + 1) % 7

/-- Embeds `now.setDate(now.getDate() - 1)` (server.js line 244): the
`Date` object normalises day 0 to the last day of the previous month,
and January 0 to December 31 of the previous year. -/
def jsDatePredOf (dt : Ymd) : Ymd :=
  if 2 ≤ dt.d then ⟨dt.y, dt.m, dt.d - 1⟩
  else if 2 ≤ dt.m then ⟨dt.y, dt.m - 1, monthLen dt.y (dt.m - 1)⟩
  else ⟨dt.y - 1, 12, 31⟩

/-- A reference instant in the Europe/Zagreb local frame, as far as
`getActiveServiceIds` consumes it: local calendar date and local hour. -/
structure LocalInstant where
  date : Ymd
  hour : Nat
  deriving DecidableEq, Repr

/-- Embeds the night-cutoff mutation of `getActiveServiceIds`
(server.js lines 242-246): before 04:00 local the `Date` is stepped back
one day, otherwise it is left unchanged. -/
def effectiveYmd (t : LocalInstant) : Ymd :=
  if t.hour < 4 then jsDatePredOf t.date else t.date

/-- Embeds the `yyyymmdd` formatting of the effective date
(server.js lines 248-251). -/
def ymdToStr (dt : Ymd) : String :=
  toString dt.y ++ pad2 (dt.m : Int) ++ pad2 (dt.d : Int)

/-- One row of `calendar.txt` as Papa.parse delivers it: every field is
a string. -/
structure CalendarRow where
  service_id : String
  sunday : String
  monday : String
  tuesday : String
  wednesday : String
  thursday : String
  friday : String
  saturday : String
  start_date : String
  end_date : String
  deriving DecidableEq, Repr

/-- One row of `calendar_dates.txt`. -/
structure CalDateRow where
  service_id : String
  date : String
  exception_type : String
  deriving DecidableEq, Repr

/-- Embeds `row[todayName]` where `todayName` is
`['sunday','monday',...,'saturday'][now.getDay()]`
(server.js lines 253-254). -/
def dayFlag (r : CalendarRow) : Nat → String
  | 0 => r.sunday
  | 1 => r.monday
  | 2 => r.tuesday
  | 3 => r.wednesday
  | 4 => r.thursday
  | 5 => r.friday
  | 6 => r.saturday
  | _ => ""

/-- Lexicographic strict comparison of character lists by code unit,
the order JavaScript `<` applies to strings. -/
def jsStrLtL : List Char → List Char → Bool
  | [], [] => false
  | [], _ :: _ => true
  | _ :: _, [] => false
  | a :: as, b :: bs =>
      if a.toNat < b.toNat then true
      else if b.toNat < a.toNat then false
      else jsStrLtL as bs

/-- JavaScript `a <= b` on strings: not `b < a` in code-unit
lexicographic order. -/
def jsStrLe (a b : String) : Bool := !(jsStrLtL b.data a.data)

/-- Embeds the base pass over `calendar.txt` (server.js lines 261-265):
a service is added when its weekday flag is "1" and the effective date
string lies in the inclusive lexicographic window. -/
def calendarPass (effDate : String) (dayIdx : Nat)
    (cal : List CalendarRow) : Finset String :=
  cal.foldl
    (fun s r =>
      if dayFlag r dayIdx = "1" ∧ jsStrLe r.start_date effDate ∧ jsStrLe effDate r.end_date
      then insert r.service_id s else s)
    ∅

/-- Embeds the exception pass over `calendar_dates.txt`
(server.js lines 266-271): rows for the effective date add the service
for exception type "1" and delete it for type "2". -/
def exceptionsPass (effDate : String) (exc : List CalDateRow)
    (base : Finset String) : Finset String :=
  exc.foldl
    (fun s r =>
      if r.date = effDate then
        if r.exception_type = "1" then insert r.service_id s
        else if r.exception_type = "2" then s.erase r.service_id
        else s
      else s)
    base

/-- The pure core of `getActiveServiceIds`: base calendar pass, then the
exception pass. -/
def activeServiceIds (effDate : String) (dayIdx : Nat)
    (cal : List CalendarRow) (exc : List CalDateRow) : Finset String :=
  exceptionsPass effDate exc (calendarPass effDate dayIdx cal)

/-- Embeds `readCsv` of `getActiveServiceIds` (server.js line 256):
`fs.readFileSync` on an absent file throws, so an absent file is an
error, not an empty table; a present file yields its parsed rows. -/
def readCsvE {α : Type} (file : Option (List α)) : Except String (List α) :=
  match file with
  | none => Except.error "ENOENT: no such file or directory"
  | some rows => Except.ok rows

/-- Embeds `getActiveServiceIds` (server.js lines 241-273) end to end:
the effective date (string and weekday) is derived once from the
night-cutoff-adjusted instant and feeds both passes; reading either file
propagates the exception when the file is absent. -/
def getActiveServiceIdsE (t : LocalInstant)
    (calFile : Option (List CalendarRow)) (excFile : Option (List CalDateRow)) :
    Except String (Finset String) := do
  let cal ← readCsvE calFile
  let exc ← readCsvE excFile
  pure (activeServiceIds (ymdToStr (effectiveYmd t)) (dayOfWeek (effectiveYmd t)) cal exc)

/-- One raw record of `stops.txt` after name trimming and coordinate
parsing; all stops handled by one clustering run share one trimmed name,
so only id and coordinates remain.  Coordinates are the parsed decimal
degrees represented exactly in units of one millionth of a degree
(micro-degrees), a scaling that preserves every strict comparison the
code performs. -/
structure RawStop where
  stop_id : String
  stop_lat : Int
  stop_lon : Int
  deriving DecidableEq, Repr

/-- A cluster as the code builds it: the seed is `cluster[0]` (the first
member, never displaced because later members are pushed at the end). -/
structure Cluster where
  seed : RawStop
  rest : List RawStop
  deriving DecidableEq, Repr

/-- All members of a cluster, seed first, in join order. -/
def Cluster.members (c : Cluster) : List RawStop := c.seed :: c.rest

/-- Embeds the proximity test of `loadGtfsFilesToMemory`
(server.js line 311): both coordinate axes must differ by less than
0.02 degrees (20000 micro-degrees) from the cluster seed. -/
def withinTol (seed s : RawStop) : Prop :=
  (s.stop_lat - seed.stop_lat).natAbs < 20000 ∧
  (s.stop_lon - seed.stop_lon).natAbs < 20000

instance (seed s : RawStop) : Decidable (withinTol seed s) := by
  unfold withinTol; infer_instance

/-- Embeds one iteration of the per-stop loop (server.js lines 304-318):
scan the existing clusters in order, join the first whose seed is within
tolerance, else open a new cluster at the end. -/
def addStop : List Cluster → RawStop → List Cluster
  | [], s => [⟨s, []⟩]
  | c :: cs, s =>
      if withinTol c.seed s then ⟨c.seed, c.rest ++ [s]⟩ :: cs
      else c :: addStop cs s

/-- The clusters a name group produces, in discovery order. -/
def clustersOf (g : List RawStop) : List Cluster := g.foldl addStop []

/-- Embeds the naming rule (server.js lines 320-322): with more than one
cluster the k-th cluster (0-based index `idx`) is suffixed " (idx+1)",
a single cluster keeps the bare name. -/
def finalName (name : String) (n idx : Nat) : String :=
  if 1 < n then name ++ " (" ++ toString (idx + 1) ++ ")" else name

/-- The `stopsIdToName` contributions of one name group
(server.js lines 332-333): every member stop id maps to its cluster's
final name. -/
def groupStationMap (name : String) (g : List RawStop) : List (String × String) :=
  (clustersOf g).enum.flatMap
    (fun p => p.2.members.map
      (fun s => (s.stop_id, finalName name (clustersOf g).length p.1)))

/-- The `stationLocations` contributions of one name group
(server.js lines 325-330): each cluster's final name carries the
coordinates of its seed member. -/
def groupLocations (name : String) (g : List RawStop) : List (String × Int × Int) :=
  (clustersOf g).enum.map
    (fun p => (finalName name (clustersOf g).length p.1,
               p.2.seed.stop_lat, p.2.seed.stop_lon))

/-- One iteration of the `/api/nearest` scan loop (server.js lines
448-454): with `minDist = Infinity` initially (`none`), a station whose
distance is strictly below the running minimum becomes the new closest
station. -/
def scanStep (dist : Int → Int → ℚ) (best : Option (String × ℚ))
    (p : String × Int × Int) : Option (String × ℚ) :=
  let d := dist p.2.1 p.2.2
  match best with
  | none => some (p.1, d)
  | some q => if d < q.2 then some (p.1, d) else some q

/-- Embeds the scan loop of the `/api/nearest` handler (server.js lines
445-454) parametrically in the distance function the code evaluates at
each station (`getDistanceFromLatLonInKm` is floating-point haversine,
abstracted here as an arbitrary function of the station coordinates). -/
def nearestScan (dist : Int → Int → ℚ) (stations : List (String × Int × Int)) :
    Option (String × ℚ) :=
  stations.foldl (scanStep dist) none

/-- Embeds the answer step of `/api/nearest` (server.js lines 457-461):
the scan winner is reported only when its name is truthy (a nonempty
string) and its distance is strictly below 5 km, otherwise the handler
answers `{ name: null }`, modelled as `none`. -/
def apiNearest (dist : Int → Int → ℚ) (stations : List (String × Int × Int)) :
    Option (String × ℚ) :=
  match nearestScan dist stations with
  | some q => if q.1 ≠ "" ∧ q.2 < 5 then some q else none
  | none => none

/-- Specification-side reading of the amended delay rule: the first
nonzero present delay among departure then arrival, defaulting to 0. -/
def preferNonzero (dep arr : Option Int) : Int :=
  match dep, arr with
  | some d, some a => if d ≠ 0 then d else if a ≠ 0 then a else 0
  | some d, none => if d ≠ 0 then d else 0
  | none, some a => if a ≠ 0 then a else 0
  | none, none => 0

lemma extractDelay_eq_preferNonzero (stu : StopTimeUpdate) :
    extractDelay stu = preferNonzero (optDelay stu.departure) (optDelay stu.arrival) := by
  unfold extractDelay preferNonzero jsOrD
  rcases optDelay stu.departure with _ | d <;> rcases optDelay stu.arrival with _ | a <;>
    simp <;> split_ifs <;> simp_all

/-- Claim C1 (counterexample): with a cached map `[("t1", 300)]` fetched
at time 0, a failing fetch at time 10000 (cache older than the 8000 ms
window) makes `getLiveFeed` return the empty map, not the previously
cached map, refuting the claim that a failing call with an existing
cache returns that cache. -/
theorem getLiveFeed_stale_cache_failure_cex :
    (getLiveFeed ⟨some [("t1", 300)], 0⟩ 10000 FetchOutcome.failed).1 = [] ∧
    (getLiveFeed ⟨some [("t1", 300)], 0⟩ 10000 FetchOutcome.failed).1 ≠ [("t1", 300)] := by
  constructor
  · rfl
  · decide

/-- Claim C1 (amended): `getLiveFeed` never throws; on fetch or decode
failure it returns the empty map and leaves the cache state untouched,
whether or not a cached map exists.  The previously cached map is
returned only when it is younger than the 8000 ms window, in which case
no fetch is attempted at all. -/
theorem getLiveFeed_failure_behavior (st : LiveCacheState) (now : Int) :
    (∀ cached, st.cachedLiveData = some cached → now - st.lastLiveFetch < 8000 →
        getLiveFeed st now FetchOutcome.failed = (cached, st)) ∧
    (st.cachedLiveData = none → getLiveFeed st now FetchOutcome.failed = ([], st)) ∧
    (8000 ≤ now - st.lastLiveFetch → getLiveFeed st now FetchOutcome.failed = ([], st)) := by
  obtain ⟨cd, lf⟩ := st
  refine ⟨?_, ?_, ?_⟩
  · rintro cached rfl h
    simp only [getLiveFeed, if_pos h]
  · rintro rfl
    rfl
  · intro h
    cases cd with
    | none => rfl
    | some cached =>
        have hdef : getLiveFeed ⟨some cached, lf⟩ now FetchOutcome.failed =
            if now - lf < 8000 then (cached, ⟨some cached, lf⟩)
            else ([], ⟨some cached, lf⟩) := rfl
        rw [hdef, if_neg (by simp only at h; omega)]

theorem getLiveFeed_failure_behavior_witness :
    getLiveFeed ⟨some [("a", 1)], 0⟩ 100 FetchOutcome.failed =
      ([("a", 1)], ⟨some [("a", 1)], 0⟩) ∧
    getLiveFeed ⟨some [("a", 1)], 0⟩ 9000 FetchOutcome.failed =
      ([], ⟨some [("a", 1)], 0⟩) ∧
    getLiveFeed ⟨none, 0⟩ 100 FetchOutcome.failed = ([], ⟨none, 0⟩) :=
  ⟨(getLiveFeed_failure_behavior ⟨some [("a", 1)], 0⟩ 100).1 [("a", 1)] rfl (by decide),
   (getLiveFeed_failure_behavior ⟨some [("a", 1)], 0⟩ 9000).2.2 (by decide),
   (getLiveFeed_failure_behavior ⟨none, 0⟩ 100).2.1 rfl⟩

/-- Claim C2 (counterexample): an entity whose first stop-time update
carries a present departure delay of 0 and an arrival delay of 120
records 120, not the departure delay 0: the JavaScript `||` chain drops
a zero departure delay, refuting the claim for present delay 0. -/
theorem liveMap_zero_departure_delay_cex :
    buildLiveMap [⟨some ⟨"t1", [⟨some ⟨some 0⟩, some ⟨some 120⟩⟩]⟩⟩] = [("t1", 120)] ∧
    lookupKey (buildLiveMap [⟨some ⟨"t1", [⟨some ⟨some 0⟩, some ⟨some 120⟩⟩]⟩⟩]) "t1" ≠
      some 0 := by
  decide

/-- Claim C2 (amended): for every entity carrying a trip update with at
least one stop-time update, the delay written under its trip id is the
first stop-time update's departure delay when present and nonzero,
otherwise that update's arrival delay when present and nonzero,
otherwise 0 (a present delay of 0 in either slot is skipped by the `||`
chain); stop-time updates after the first contribute nothing. -/
theorem liveMap_first_stu_delay_rule (m : List (String × Int)) (tid : String)
    (stu : StopTimeUpdate) (rest : List StopTimeUpdate) :
    processEntity m ⟨some ⟨tid, stu :: rest⟩⟩ =
      setKey m tid (preferNonzero (optDelay stu.departure) (optDelay stu.arrival)) ∧
    processEntity m ⟨some ⟨tid, stu :: rest⟩⟩ = processEntity m ⟨some ⟨tid, [stu]⟩⟩ := by
  refine ⟨?_, rfl⟩
  simp only [processEntity, extractDelay_eq_preferNonzero]

/-- Claim C3 (counterexample): with the weekly-calendar file absent (and
the exceptions file present but empty), `getActiveServiceIds` propagates
the `readFileSync` exception instead of treating the absent file as an
empty table, so the rebuild does not complete. -/
theorem activeServices_missing_calendar_cex :
    getActiveServiceIdsE ⟨⟨2024, 1, 15⟩, 12⟩ none (some []) =
      Except.error "ENOENT: no such file or directory" ∧
    getActiveServiceIdsE ⟨⟨2024, 1, 15⟩, 12⟩ none (some []) ≠
      Except.ok (∅ : Finset String) := by
  have he : getActiveServiceIdsE ⟨⟨2024, 1, 15⟩, 12⟩ none (some []) =
      Except.error "ENOENT: no such file or directory" := rfl
  refine ⟨he, fun h => ?_⟩
  rw [he] at h
  exact Except.noConfusion h

/-- Claim C3 (amended): if the weekly-calendar file or the exceptions
file is absent, `getActiveServiceIds` raises (the unguarded
`fs.readFileSync` throws) and the rebuild fails; only a present file is
treated as a table — in particular present-but-empty files yield the
empty active set — and an empty resulting active set is returned
normally, never an abort. -/
theorem activeServices_missing_file_behavior (t : LocalInstant) :
    (∀ excFile, getActiveServiceIdsE t none excFile =
        Except.error "ENOENT: no such file or directory") ∧
    (∀ cal, getActiveServiceIdsE t (some cal) none =
        Except.error "ENOENT: no such file or directory") ∧
    (∀ cal exc, getActiveServiceIdsE t (some cal) (some exc) =
        Except.ok (activeServiceIds (ymdToStr (effectiveYmd t))
          (dayOfWeek (effectiveYmd t)) cal exc)) ∧
    getActiveServiceIdsE t (some []) (some []) = Except.ok (∅ : Finset String) := by
  exact ⟨fun _ => rfl, fun _ => rfl, fun _ _ => rfl, rfl⟩

/-- Claim C10: an entity whose trip update carries an empty stop-time
update list writes nothing into the live map (no default 0 entry), and
likewise an entity with no trip update; consequently a board row for a
trip id that is not a key of the live map is either dropped by the
window or shown with status "SCHED" and the unadjusted scheduled
minute. -/
theorem empty_stu_no_live_entry (m : List (String × Int)) (tid : String)
    (live : List (String × Int)) (sm : Int) (trip : SchedTrip) :
    processEntity m ⟨some ⟨tid, []⟩⟩ = m ∧
    processEntity m ⟨none⟩ = m ∧
    (lookupKey live trip.trip_id = none →
      entryOf live sm trip =
        if sm - 10 ≤ trip.timeMin ∧ trip.timeMin ≤ sm + 90 ∧ -2 ≤ trip.timeMin - sm
        then some ⟨trip.linija, trip.smjer, trip.timeMin - sm,
                   minutesToTime trip.timeMin, "SCHED"⟩
        else none) := by
  refine ⟨rfl, rfl, fun hnone => ?_⟩
  simp only [entryOf, hnone]
  by_cases hw : trip.timeMin ≥ sm - 10 ∧ trip.timeMin ≤ sm + 90
  · rw [if_pos hw]
    by_cases hc : trip.timeMin - sm ≥ -2
    · rw [if_pos hc, if_pos ⟨by omega, by omega, by omega⟩]
    · rw [if_neg hc, if_neg (by omega)]
  · rw [if_neg hw, if_neg (by omega)]

theorem empty_stu_no_live_entry_witness :
    processEntity [("x", 5)] ⟨some ⟨"t9", []⟩⟩ = [("x", 5)] ∧
    entryOf [] 600 ⟨"t1", "5", "Dubec", 650⟩ =
      some ⟨"5", "Dubec", 50, "10:50", "SCHED"⟩ := by
  have h := empty_stu_no_live_entry [("x", 5)] "t9" [] 600 ⟨"t1", "5", "Dubec", 650⟩
  refine ⟨h.1, ?_⟩
  rw [h.2.2 rfl]
  decide

lemma exceptionsPass_not_touched (effDate s : String) (exc : List CalDateRow) :
    ∀ base : Finset String,
      (∀ r ∈ exc, ¬(r.service_id = s ∧ r.date = effDate)) →
      (s ∈ exceptionsPass effDate exc base ↔ s ∈ base) := by
  induction exc with
  | nil => intro base _; exact Iff.rfl
  | cons a l ih =>
      intro base h
      have hstep : exceptionsPass effDate (a :: l) base =
          exceptionsPass effDate l
            (if a.date = effDate then
              (if a.exception_type = "1" then insert a.service_id base
               else if a.exception_type = "2" then base.erase a.service_id else base)
             else base) := rfl
      rw [hstep, ih _ (fun r hr => h r (List.mem_cons_of_mem a hr))]
      have ha := h a (List.mem_cons_self a l)
      split_ifs with h1 h2 h3
      · have hne : s ≠ a.service_id := fun hs => ha ⟨hs.symm, h1⟩
        simp [Finset.mem_insert, hne]
      · have hne : s ≠ a.service_id := fun hs => ha ⟨hs.symm, h1⟩
        simp [Finset.mem_erase, hne]
      · exact Iff.rfl
      · exact Iff.rfl

lemma exceptionsPass_removed (effDate : String) (exc : List CalDateRow) :
    ∀ base : Finset String,
      exc.Pairwise (fun r1 r2 => ¬(r1.service_id = r2.service_id ∧ r1.date = r2.date)) →
      ∀ r ∈ exc, r.date = effDate → r.exception_type = "2" →
      r.service_id ∉ exceptionsPass effDate exc base := by
  induction exc with
  | nil => intro base _ r hr; cases hr
  | cons a l ih =>
      intro base hp r hr hd ht
      rw [List.pairwise_cons] at hp
      obtain ⟨hpa, hpl⟩ := hp
      have hstep : exceptionsPass effDate (a :: l) base =
          exceptionsPass effDate l
            (if a.date = effDate then
              (if a.exception_type = "1" then insert a.service_id base
               else if a.exception_type = "2" then base.erase a.service_id else base)
             else base) := rfl
      rw [List.mem_cons] at hr
      rcases hr with rfl | hr
      · have hset : (if r.date = effDate then
              (if r.exception_type = "1" then insert r.service_id base
               else if r.exception_type = "2" then base.erase r.service_id else base)
             else base) = base.erase r.service_id := by
          rw [if_pos hd,
            if_neg (fun hq => absurd (ht.symm.trans hq) (by decide)),
            if_pos ht]
        rw [hstep, hset,
          exceptionsPass_not_touched effDate r.service_id l _
            (fun r2 hr2 hc => hpa r2 hr2 ⟨hc.1.symm, hd.trans hc.2.symm⟩)]
        exact Finset.not_mem_erase _ _
      · rw [hstep]
        exact ih _ hpl r hr hd ht

lemma exceptionsPass_added (effDate : String) (exc : List CalDateRow) :
    ∀ base : Finset String,
      exc.Pairwise (fun r1 r2 => ¬(r1.service_id = r2.service_id ∧ r1.date = r2.date)) →
      ∀ r ∈ exc, r.date = effDate → r.exception_type = "1" →
      r.service_id ∈ exceptionsPass effDate exc base := by
  induction exc with
  | nil => intro base _ r hr; cases hr
  | cons a l ih =>
      intro base hp r hr hd ht
      rw [List.pairwise_cons] at hp
      obtain ⟨hpa, hpl⟩ := hp
      have hstep : exceptionsPass effDate (a :: l) base =
          exceptionsPass effDate l
            (if a.date = effDate then
              (if a.exception_type = "1" then insert a.service_id base
               else if a.exception_type = "2" then base.erase a.service_id else base)
             else base) := rfl
      rw [List.mem_cons] at hr
      rcases hr with rfl | hr
      · have hset : (if r.date = effDate then
              (if r.exception_type = "1" then insert r.service_id base
               else if r.exception_type = "2" then base.erase r.service_id else base)
             else base) = insert r.service_id base := by
          rw [if_pos hd, if_pos ht]
        rw [hstep, hset,
          exceptionsPass_not_touched effDate r.service_id l _
            (fun r2 hr2 hc => hpa r2 hr2 ⟨hc.1.symm, hd.trans hc.2.symm⟩)]
        exact Finset.mem_insert_self _ _
      · rw [hstep]
        exact ih _ hpl r hr hd ht

lemma mem_foldl_calendar (effDate : String) (dayIdx : Nat) (s : String) :
    ∀ (cal : List CalendarRow) (base : Finset String), s ∈ base →
      s ∈ cal.foldl
        (fun acc r =>
          if dayFlag r dayIdx = "1" ∧ jsStrLe r.start_date effDate ∧ jsStrLe effDate r.end_date
          then insert r.service_id acc else acc) base := by
  intro cal
  induction cal with
  | nil => intro base hb; exact hb
  | cons a l ih =>
      intro base hb
      rw [List.foldl_cons]
      refine ih _ ?_
      dsimp only
      split_ifs
      · exact Finset.mem_insert_of_mem hb
      · exact hb

lemma mem_calendarPass (effDate : String) (dayIdx : Nat) (row : CalendarRow) :
    ∀ (cal : List CalendarRow) (base : Finset String), row ∈ cal →
      dayFlag row dayIdx = "1" → jsStrLe row.start_date effDate = true →
      jsStrLe effDate row.end_date = true →
      row.service_id ∈ cal.foldl
        (fun acc r =>
          if dayFlag r dayIdx = "1" ∧ jsStrLe r.start_date effDate ∧ jsStrLe effDate r.end_date
          then insert r.service_id acc else acc) base := by
  intro cal
  induction cal with
  | nil => intro base hr; cases hr
  | cons a l ih =>
      intro base hr hf h1 h2
      rw [List.mem_cons] at hr
      rw [List.foldl_cons]
      rcases hr with rfl | hr
      · refine mem_foldl_calendar effDate dayIdx _ l _ ?_
        dsimp only
        rw [if_pos ⟨hf, h1, h2⟩]
        exact Finset.mem_insert_self _ _
      · exact ih _ hr hf h1 h2

/-- Claim C5: `activeServiceIds` is the base calendar pass followed by
the exception pass, and exceptions win: under distinct
(service_id, date) exception keys, every service with a Removed
(type "2") exception for the effective date is absent from the final set
no matter how it qualified in the base pass, every service with an Added
(type "1") exception for that date is present even with no matching
calendar row, and any calendar row whose weekday flag and validity
window match does enter the base pass. -/
theorem exception_precedence (effDate : String) (dayIdx : Nat)
    (cal : List CalendarRow) (exc : List CalDateRow)
    (hp : exc.Pairwise fun r1 r2 => ¬(r1.service_id = r2.service_id ∧ r1.date = r2.date)) :
    (∀ r ∈ exc, r.date = effDate → r.exception_type = "2" →
        r.service_id ∉ activeServiceIds effDate dayIdx cal exc) ∧
    (∀ r ∈ exc, r.date = effDate → r.exception_type = "1" →
        r.service_id ∈ activeServiceIds effDate dayIdx cal exc) ∧
    (∀ row ∈ cal, dayFlag row dayIdx = "1" → jsStrLe row.start_date effDate = true →
        jsStrLe effDate row.end_date = true →
        row.service_id ∈ calendarPass effDate dayIdx cal) ∧
    activeServiceIds effDate dayIdx cal exc =
      exceptionsPass effDate exc (calendarPass effDate dayIdx cal) := by
  refine ⟨?_, ?_, ?_, rfl⟩
  · intro r hr hd ht
    exact exceptionsPass_removed effDate exc _ hp r hr hd ht
  · intro r hr hd ht
    exact exceptionsPass_added effDate exc _ hp r hr hd ht
  · intro row hrow hf h1 h2
    exact mem_calendarPass effDate dayIdx row cal _ hrow hf h1 h2

theorem exception_precedence_witness :
    ("WD" ∉ activeServiceIds "20240115" 1
        [⟨"WD", "0", "1", "0", "0", "0", "0", "0", "20240101", "20241231"⟩]
        [⟨"WD", "20240115", "2"⟩, ⟨"EX", "20240115", "1"⟩]) ∧
    ("EX" ∈ activeServiceIds "20240115" 1
        [⟨"WD", "0", "1", "0", "0", "0", "0", "0", "20240101", "20241231"⟩]
        [⟨"WD", "20240115", "2"⟩, ⟨"EX", "20240115", "1"⟩]) ∧
    ("WD" ∈ calendarPass "20240115" 1
        [⟨"WD", "0", "1", "0", "0", "0", "0", "0", "20240101", "20241231"⟩]) := by
  have h := exception_precedence "20240115" 1
    [⟨"WD", "0", "1", "0", "0", "0", "0", "0", "20240101", "20241231"⟩]
    [⟨"WD", "20240115", "2"⟩, ⟨"EX", "20240115", "1"⟩]
    (by decide)
  refine ⟨h.1 ⟨"WD", "20240115", "2"⟩ (by decide) rfl rfl,
          h.2.1 ⟨"EX", "20240115", "1"⟩ (by decide) rfl rfl,
          h.2.2.1 ⟨"WD", "0", "1", "0", "0", "0", "0", "0", "20240101", "20241231"⟩
            (by decide) rfl (by decide) (by decide)⟩

lemma leapsBefore_succ (n : Nat) (hn : 1 ≤ n) :
    leapsBefore (n + 1) = leapsBefore n + (if isLeap n then 1 else 0) := by
  obtain ⟨m, rfl⟩ : ∃ m, n = m + 1 := ⟨n - 1, by omega⟩
  unfold leapsBefore isLeap
  simp only [Nat.add_sub_cancel]
  rw [Nat.succ_div m 4, Nat.succ_div m 100, Nat.succ_div m 400]
  simp only [Bool.or_eq_true, Bool.and_eq_true, beq_iff_eq, bne_iff_ne,
    Nat.dvd_iff_mod_eq_zero]
  split_ifs <;> omega

lemma monthLen_pos (y m : Nat) : 1 ≤ monthLen y m := by
  unfold monthLen
  split_ifs <;> omega

lemma jsDatePredOf_spec (dt : Ymd) (hv : ValidYmd dt) (hy : 2 ≤ dt.y) :
    ValidYmd (jsDatePredOf dt) ∧ toDayNumber (jsDatePredOf dt) + 1 = toDayNumber dt := by
  obtain ⟨y, m, d⟩ := dt
  obtain ⟨h1, h2, h3, h4, h5⟩ := hv
  simp only at h1 h2 h3 h4 h5 hy
  unfold jsDatePredOf
  by_cases hd : 2 ≤ d
  · rw [if_pos hd]
    constructor
    · unfold ValidYmd
      dsimp only
      omega
    · unfold toDayNumber
      dsimp only
      by_cases hL : isLeap y ∧ 3 ≤ m <;> omega
  · rw [if_neg hd]
    by_cases hm : 2 ≤ m
    · rw [if_pos hm]
      constructor
      · unfold ValidYmd
        dsimp only
        have hml := monthLen_pos y (m - 1)
        omega
      · unfold toDayNumber
        dsimp only
        have hd1 : d = 1 := by omega
        subst hd1
        interval_cases m <;>
          by_cases hL : isLeap y <;>
          simp [cumMonth, monthLen, hL]
    · rw [if_neg hm]
      have hm1 : m = 1 := by omega
      have hd1 : d = 1 := by omega
      subst hm1; subst hd1
      constructor
      · unfold ValidYmd
        dsimp only
        have h31 : monthLen (y - 1) 12 = 31 := rfl
        omega
      · unfold toDayNumber
        dsimp only
        have hsucc := leapsBefore_succ (y - 1) (by omega)
        have hyy : y - 1 + 1 = y := by omega
        rw [hyy] at hsucc
        rw [hsucc]
        by_cases hL : isLeap (y - 1) <;> simp [cumMonth, hL] <;> omega

/-- Claim C4: for a reference instant with local hour h, the effective
date `getActiveServiceIds` works with is the instant's calendar date
minus one day when h < 4 (the `setDate(getDate() - 1)` step, shown here
to produce a valid date whose linear day number is exactly one less) and
the calendar date itself when h ≥ 4; both the `yyyymmdd` string used for
the start/end comparison and the weekday index used for the flag lookup
are derived from that one effective date. -/
theorem effectiveDate_night_cutoff (t : LocalInstant)
    (hv : ValidYmd t.date) (hy : 2 ≤ t.date.y) :
    (t.hour < 4 → ValidYmd (effectiveYmd t) ∧
        toDayNumber (effectiveYmd t) + 1 = toDayNumber t.date) ∧
    (4 ≤ t.hour → effectiveYmd t = t.date) ∧
    (∀ cal exc, getActiveServiceIdsE t (some cal) (some exc) =
        Except.ok (activeServiceIds (ymdToStr (effectiveYmd t))
          (dayOfWeek (effectiveYmd t)) cal exc)) := by
  refine ⟨fun hh => ?_, fun hh => ?_, fun _ _ => rfl⟩
  · rw [show effectiveYmd t = jsDatePredOf t.date from if_pos hh]
    exact jsDatePredOf_spec t.date hv hy
  · exact if_neg (by omega)

theorem effectiveDate_night_cutoff_witness :
    effectiveYmd ⟨⟨2024, 3, 1⟩, 2⟩ = ⟨2024, 2, 29⟩ ∧
    ValidYmd (effectiveYmd ⟨⟨2024, 3, 1⟩, 2⟩) ∧
    toDayNumber (effectiveYmd ⟨⟨2024, 3, 1⟩, 2⟩) + 1 = toDayNumber ⟨2024, 3, 1⟩ ∧
    effectiveYmd ⟨⟨2024, 3, 1⟩, 12⟩ = ⟨2024, 3, 1⟩ := by
  have h1 := (effectiveDate_night_cutoff ⟨⟨2024, 3, 1⟩, 2⟩ (by decide) (by decide)).1
    (by decide)
  have h2 := (effectiveDate_night_cutoff ⟨⟨2024, 3, 1⟩, 12⟩ (by decide) (by decide)).2.1
    (by decide)
  exact ⟨by decide, h1.1, h1.2, h2⟩

lemma addStop_first_fit (cs : List Cluster) (s : RawStop) :
    (∃ i, ∃ hi : i < cs.length,
        withinTol (cs[i]).seed s ∧
        (∀ j (hj : j < cs.length), j < i → ¬ withinTol (cs[j]).seed s) ∧
        addStop cs s = cs.set i ⟨(cs[i]).seed, (cs[i]).rest ++ [s]⟩) ∨
    ((∀ j (hj : j < cs.length), ¬ withinTol (cs[j]).seed s) ∧
        addStop cs s = cs ++ [Cluster.mk s []]) := by
  induction cs with
  | nil =>
      right
      exact ⟨fun j hj => absurd hj (by simp), rfl⟩
  | cons c cs ih =>
      by_cases h : withinTol c.seed s
      · left
        refine ⟨0, by simp, ?_, ?_, ?_⟩
        · simpa using h
        · intro j hj hj0; omega
        · simp [addStop, h]
      · have hstep : addStop (c :: cs) s = c :: addStop cs s := by
          simp [addStop, h]
        rcases ih with ⟨i, hi, hw, hmin, heq⟩ | ⟨hall, heq⟩
        · left
          refine ⟨i + 1, by simpa using Nat.succ_lt_succ hi, ?_, ?_, ?_⟩
          · simpa using hw
          · intro j hj hji
            match j with
            | 0 => simpa using h
            | k + 1 =>
                have hk : k < cs.length := by simpa using Nat.lt_of_succ_lt_succ hj
                simpa using hmin k hk (by omega)
          · rw [hstep, heq]
            simp [List.set]
        · right
          refine ⟨?_, ?_⟩
          · intro j hj
            match j with
            | 0 => simpa using h
            | k + 1 =>
                have hk : k < cs.length := by simpa using Nat.lt_of_succ_lt_succ hj
                simpa using hall k hk
          · rw [hstep, heq]
            rfl

/-- Claim C6: within one trimmed-name group, processed in input order, a
stop joins the first existing cluster whose seed differs from it by less
than 0.02 degrees on both axes and otherwise opens a new cluster at the
end; with N > 1 clusters the k-th cluster in discovery order is named
with suffix " (k)" for k starting at 1, a single cluster keeps the bare
name; every stop id of a cluster maps to that cluster's final name, and
each cluster's recorded coordinate is its seed member's coordinate. -/
theorem clustering_first_fit_naming (name : String) (g : List RawStop)
    (s : RawStop) (cs : List Cluster) :
    (clustersOf (g ++ [s]) = addStop (clustersOf g) s) ∧
    ((∃ i, ∃ hi : i < cs.length,
        withinTol (cs[i]).seed s ∧
        (∀ j (hj : j < cs.length), j < i → ¬ withinTol (cs[j]).seed s) ∧
        addStop cs s = cs.set i ⟨(cs[i]).seed, (cs[i]).rest ++ [s]⟩) ∨
      ((∀ j (hj : j < cs.length), ¬ withinTol (cs[j]).seed s) ∧
        addStop cs s = cs ++ [Cluster.mk s []])) ∧
    (∀ n i, 1 < n → finalName name n i = name ++ " (" ++ toString (i + 1) ++ ")") ∧
    (∀ i, finalName name 1 i = name) ∧
    (∀ i (hi : i < (clustersOf g).length)
        (hl : i < (groupLocations name g).length),
        (groupLocations name g).get ⟨i, hl⟩ =
          (finalName name (clustersOf g).length i,
           ((clustersOf g)[i]).seed.stop_lat, ((clustersOf g)[i]).seed.stop_lon)) ∧
    (∀ i (hi : i < (clustersOf g).length), ∀ st ∈ ((clustersOf g)[i]).members,
        (st.stop_id, finalName name (clustersOf g).length i) ∈
          groupStationMap name g) := by
  refine ⟨?_, addStop_first_fit cs s, ?_, ?_, ?_, ?_⟩
  · simp [clustersOf, List.foldl_append]
  · intro n i hn
    simp [finalName, hn]
  · intro i
    simp [finalName]
  · intro i hi hl
    simp [groupLocations, List.get_eq_getElem, List.getElem_map, List.getElem_enum]
  · intro i hi st hst
    refine List.mem_flatMap.mpr ⟨(i, (clustersOf g)[i]), ?_, ?_⟩
    · have hlen : i < (clustersOf g).enum.length := by simpa using hi
      have hget : (clustersOf g).enum[i] = (i, (clustersOf g)[i]) := by
        simp [List.getElem_enum]
      exact hget ▸ List.getElem_mem hlen
    · exact List.mem_map.mpr ⟨st, hst, rfl⟩

theorem clustering_first_fit_naming_witness :
    clustersOf [(⟨"s1", 45000000, 16000000⟩ : RawStop),
        ⟨"s2", 45010000, 16010000⟩, ⟨"s3", 45500000, 16000000⟩] =
      [⟨⟨"s1", 45000000, 16000000⟩, [⟨"s2", 45010000, 16010000⟩]⟩,
       ⟨⟨"s3", 45500000, 16000000⟩, []⟩] ∧
    (("s2", "K (1)") ∈ groupStationMap "K"
      [⟨"s1", 45000000, 16000000⟩, ⟨"s2", 45010000, 16010000⟩,
       ⟨"s3", 45500000, 16000000⟩]) ∧
    (groupLocations "K"
      [⟨"s1", 45000000, 16000000⟩, ⟨"s2", 45010000, 16010000⟩,
       ⟨"s3", 45500000, 16000000⟩]).get ⟨1, by decide⟩ =
      ("K (2)", 45500000, 16000000) := by
  have h := clustering_first_fit_naming "K"
    [⟨"s1", 45000000, 16000000⟩, ⟨"s2", 45010000, 16010000⟩,
     ⟨"s3", 45500000, 16000000⟩]
    ⟨"s3", 45500000, 16000000⟩ []
  refine ⟨by decide, ?_, ?_⟩
  · have hm := h.2.2.2.2.2 0 (by decide) ⟨"s2", 45010000, 16010000⟩ (by decide)
    exact (by decide :
      finalName "K" (clustersOf [(⟨"s1", 45000000, 16000000⟩ : RawStop),
        ⟨"s2", 45010000, 16010000⟩, ⟨"s3", 45500000, 16000000⟩]).length 0 = "K (1)") ▸ hm
  · have hl := h.2.2.2.2.1 1 (by decide) (by decide)
    rw [hl]
    decide

lemma jsRoundDiv60_eq (d : Int) : jsRoundDiv60 d = jsMathRound ((d : ℚ) / 60) := by
  unfold jsRoundDiv60 jsMathRound
  have h1 : ((d : ℚ) / 60 + 1 / 2) = ((2 * d + 60 : Int) : ℚ) / ((120 : ℕ) : ℚ) := by
    push_cast; ring
  rw [h1, Rat.floor_intCast_div_natCast, Int.fdiv_eq_ediv _ (by omega)]
  rfl

/-- Delay-adjusted final minute of a departure, as the handler computes
it: the scheduled minute plus the rounded delay when the trip id is a
key of the live map, the scheduled minute otherwise. -/
def finalMinuteOf (live : List (String × Int)) (trip : SchedTrip) : Int :=
  match lookupKey live trip.trip_id with
  | some d => trip.timeMin + jsRoundDiv60 d
  | none => trip.timeMin

/-- Status string of a board row: "LIVE" exactly when the trip id is a
key of the live map. -/
def statusOf (live : List (String × Int)) (trip : SchedTrip) : String :=
  match lookupKey live trip.trip_id with
  | some _ => "LIVE"
  | none => "SCHED"

/-- The survival condition of a departure in the handler loop: scheduled
minute inside the inclusive window around `searchMinutes`, and the
delay-adjusted minutes-until value at least -2. -/
def inBoardWindow (live : List (String × Int)) (sm : Int) (trip : SchedTrip) : Prop :=
  sm - 10 ≤ trip.timeMin ∧ trip.timeMin ≤ sm + 90 ∧
  -2 ≤ finalMinuteOf live trip - sm

instance (live : List (String × Int)) (sm : Int) (trip : SchedTrip) :
    Decidable (inBoardWindow live sm trip) := by
  unfold inBoardWindow; infer_instance

lemma entryOf_eq (live : List (String × Int)) (sm : Int) (trip : SchedTrip) :
    entryOf live sm trip =
      if inBoardWindow live sm trip
      then some ⟨trip.linija, trip.smjer, finalMinuteOf live trip - sm,
                 minutesToTime (finalMinuteOf live trip), statusOf live trip⟩
      else none := by
  cases hl : lookupKey live trip.trip_id with
  | none =>
      unfold entryOf inBoardWindow finalMinuteOf statusOf
      simp only [hl]
      by_cases h1 : trip.timeMin ≥ sm - 10 ∧ trip.timeMin ≤ sm + 90
      · rw [if_pos h1]
        by_cases h2 : trip.timeMin - sm ≥ -2
        · rw [if_pos h2, if_pos ⟨h1.1, h1.2, h2⟩]
        · rw [if_neg h2, if_neg (fun hc => h2 hc.2.2)]
      · rw [if_neg h1, if_neg (fun hc => h1 ⟨hc.1, hc.2.1⟩)]
  | some d =>
      unfold entryOf inBoardWindow finalMinuteOf statusOf
      simp only [hl]
      by_cases h1 : trip.timeMin ≥ sm - 10 ∧ trip.timeMin ≤ sm + 90
      · rw [if_pos h1]
        by_cases h2 : trip.timeMin + jsRoundDiv60 d - sm ≥ -2
        · rw [if_pos h2, if_pos ⟨h1.1, h1.2, h2⟩]
        · rw [if_neg h2, if_neg (fun hc => h2 hc.2.2)]
      · rw [if_neg h1, if_neg (fun hc => h1 ⟨hc.1, hc.2.1⟩)]

/-- Claim C7: `searchMinutes` is the current minute of day advanced by
1440 before the 04:00 cutoff; the composed row list keeps exactly the
departures whose scheduled minute lies in the inclusive window
[searchMinutes - 10, searchMinutes + 90] and whose delay-adjusted
minutes-until value is at least -2; and past the cutoff a trip with no
live entry scheduled at currentMinutes + 90 survives while one at
currentMinutes + 91 is dropped. -/
theorem board_window_membership (schedule : List SchedTrip)
    (live : List (String × Int)) (hour currentMinutes : Int) :
    (searchMinutesOf hour currentMinutes =
        if hour < 4 then currentMinutes + 1440 else currentMinutes) ∧
    (∀ sm, boardRows schedule live sm =
        (schedule.filter (fun t => decide (inBoardWindow live sm t))).map
          (fun t => ⟨t.linija, t.smjer, finalMinuteOf live t - sm,
                     minutesToTime (finalMinuteOf live t), statusOf live t⟩)) ∧
    (∀ trip : SchedTrip, lookupKey live trip.trip_id = none → 4 ≤ hour →
        (trip.timeMin = currentMinutes + 90 →
          (entryOf live (searchMinutesOf hour currentMinutes) trip).isSome = true) ∧
        (trip.timeMin = currentMinutes + 91 →
          entryOf live (searchMinutesOf hour currentMinutes) trip = none)) := by
  refine ⟨by norm_num [searchMinutesOf], ?_, ?_⟩
  · intro sm
    induction schedule with
    | nil => rfl
    | cons a l ih =>
        simp only [boardRows] at ih ⊢
        rw [List.filterMap_cons, entryOf_eq, List.filter_cons]
        by_cases hp : inBoardWindow live sm a
        · rw [if_pos hp]
          simp [hp, ih]
        · rw [if_neg hp]
          simp [hp, ih]
  · intro trip hnone hh
    have hsm : searchMinutesOf hour currentMinutes = currentMinutes :=
      if_neg (by omega)
    have hfm : finalMinuteOf live trip = trip.timeMin := by
      simp [finalMinuteOf, hnone]
    constructor
    · intro ht
      rw [hsm, entryOf_eq, if_pos ⟨by omega, by omega, by omega⟩]
      rfl
    · intro ht
      rw [hsm, entryOf_eq, if_neg (fun hc => absurd hc.2.1 (by omega))]

theorem board_window_membership_witness :
    (entryOf [] (searchMinutesOf 10 600) ⟨"t1", "6", "A", 690⟩).isSome = true ∧
    entryOf [] (searchMinutesOf 10 600) ⟨"t2", "6", "A", 691⟩ = none :=
  ⟨((board_window_membership [] [] 10 600).2.2 ⟨"t1", "6", "A", 690⟩ rfl
      (by decide)).1 rfl,
   ((board_window_membership [] [] 10 600).2.2 ⟨"t2", "6", "A", 691⟩ rfl
      (by decide)).2 rfl⟩

lemma mem_insertByMin (a x : BoardEntry) :
    ∀ l, x ∈ insertByMin a l ↔ x = a ∨ x ∈ l := by
  intro l
  induction l with
  | nil => simp [insertByMin]
  | cons b bs ih =>
      unfold insertByMin
      split_ifs with h
      · rw [List.mem_cons, ih, List.mem_cons]
        tauto
      · simp

lemma sorted_insertByMin (a : BoardEntry) :
    ∀ l, List.Pairwise (fun p q : BoardEntry => p.min ≤ q.min) l →
      List.Pairwise (fun p q : BoardEntry => p.min ≤ q.min) (insertByMin a l) := by
  intro l
  induction l with
  | nil => intro; simp [insertByMin]
  | cons b bs ih =>
      intro h
      rw [List.pairwise_cons] at h
      obtain ⟨hb, hbs⟩ := h
      unfold insertByMin
      split_ifs with hba
      · rw [List.pairwise_cons]
        refine ⟨fun x hx => ?_, ih hbs⟩
        rcases (mem_insertByMin a x bs).mp hx with rfl | hx
        · exact hba
        · exact hb x hx
      · rw [List.pairwise_cons]
        refine ⟨fun x hx => ?_, List.pairwise_cons.mpr ⟨hb, hbs⟩⟩
        rcases List.mem_cons.mp hx with rfl | hx
        · omega
        · have := hb x hx; omega

lemma sorted_sortByMin :
    ∀ l, List.Pairwise (fun p q : BoardEntry => p.min ≤ q.min) (sortByMin l) := by
  intro l
  induction l with
  | nil => simp [sortByMin]
  | cons a l ih => exact sorted_insertByMin a _ ih

lemma perm_insertByMin (a : BoardEntry) : ∀ l, List.Perm (insertByMin a l) (a :: l) := by
  intro l
  induction l with
  | nil => exact List.Perm.refl _
  | cons b bs ih =>
      unfold insertByMin
      split_ifs
      · exact ((ih).cons b).trans (List.Perm.swap a b bs)
      · exact List.Perm.refl _

lemma perm_sortByMin : ∀ l : List BoardEntry, List.Perm (sortByMin l) l := by
  intro l
  induction l with
  | nil => exact List.Perm.refl _
  | cons a l ih => exact (perm_insertByMin a (sortByMin l)).trans (ih.cons a)

/-- Claim C8: a board row whose trip id carries a live delay of d
seconds gets finalMinute = scheduledMinute + round(d/60) (JavaScript
rounding of the exact quotient) and status "LIVE", one with no live
entry keeps its scheduled minute and status "SCHED"; the answered board
is a permutation-preserving stable ascending sort of the surviving rows
by their live-adjusted minutes-until value, truncated to at most 15
entries. -/
theorem board_live_adjust_sort_truncate (schedule : List SchedTrip)
    (live : List (String × Int)) (hour minute : Int) :
    (∀ (trip : SchedTrip) (d : Int) (sm : Int),
        lookupKey live trip.trip_id = some d →
        entryOf live sm trip =
          if sm - 10 ≤ trip.timeMin ∧ trip.timeMin ≤ sm + 90 ∧
             -2 ≤ trip.timeMin + jsMathRound ((d : ℚ) / 60) - sm
          then some ⟨trip.linija, trip.smjer,
                     trip.timeMin + jsMathRound ((d : ℚ) / 60) - sm,
                     minutesToTime (trip.timeMin + jsMathRound ((d : ℚ) / 60)),
                     "LIVE"⟩
          else none) ∧
    (∀ (trip : SchedTrip) (sm : Int),
        lookupKey live trip.trip_id = none →
        entryOf live sm trip =
          if sm - 10 ≤ trip.timeMin ∧ trip.timeMin ≤ sm + 90 ∧
             -2 ≤ trip.timeMin - sm
          then some ⟨trip.linija, trip.smjer, trip.timeMin - sm,
                     minutesToTime trip.timeMin, "SCHED"⟩
          else none) ∧
    List.Pairwise (fun p q : BoardEntry => p.min ≤ q.min)
      (apiBoard schedule live hour minute) ∧
    (apiBoard schedule live hour minute).length ≤ 15 ∧
    (∀ rows : List BoardEntry, List.Perm (sortByMin rows) rows) ∧
    apiBoard schedule live hour minute =
      (sortByMin (boardRows schedule live
        (searchMinutesOf hour (hour * 60 + minute)))).take 15 := by
  refine ⟨?_, ?_, ?_, ?_, fun rows => perm_sortByMin rows, rfl⟩
  · intro trip d sm h
    rw [entryOf_eq]
    simp only [inBoardWindow, finalMinuteOf, statusOf, h, jsRoundDiv60_eq]
  · intro trip sm h
    rw [entryOf_eq]
    simp only [inBoardWindow, finalMinuteOf, statusOf, h]
  · exact List.Pairwise.sublist (List.take_sublist 15 _) (sorted_sortByMin _)
  · rw [show apiBoard schedule live hour minute =
      (sortByMin (boardRows schedule live
        (searchMinutesOf hour (hour * 60 + minute)))).take 15 from rfl]
    rw [List.length_take]
    omega

theorem board_live_adjust_sort_truncate_witness :
    entryOf [("t1", 125)] 595 ⟨"t1", "6", "A", 600⟩ =
      some ⟨"6", "A", 7, "10:02", "LIVE"⟩ ∧
    apiBoard [⟨"t1", "6", "A", 600⟩, ⟨"t2", "7", "B", 601⟩] [("t1", 125)] 9 55 =
      [⟨"7", "B", 6, "10:01", "SCHED"⟩, ⟨"6", "A", 7, "10:02", "LIVE"⟩] ∧
    jsRoundDiv60 125 = 2 := by
  have h := (board_live_adjust_sort_truncate
    [⟨"t1", "6", "A", 600⟩, ⟨"t2", "7", "B", 601⟩] [("t1", 125)] 9 55).1
    ⟨"t1", "6", "A", 600⟩ 125 595 rfl
  refine ⟨?_, by decide, by decide⟩
  rw [h, ← jsRoundDiv60_eq]
  decide

lemma scan_go (dist : Int → Int → ℚ) :
    ∀ (rest : List (String × Int × Int)) (q : String × ℚ),
      ∃ res, List.foldl (scanStep dist) (some q) rest = some res ∧
        res.2 ≤ q.2 ∧
        (∀ j (hj : j < rest.length),
            res.2 ≤ dist (rest[j]).2.1 (rest[j]).2.2) ∧
        (res = q ∨ ∃ j, ∃ hj : j < rest.length,
            res = ((rest[j]).1, dist (rest[j]).2.1 (rest[j]).2.2) ∧
            res.2 < q.2 ∧
            (∀ k (hk : k < rest.length), k < j →
                res.2 < dist (rest[k]).2.1 (rest[k]).2.2)) := by
  intro rest
  induction rest with
  | nil =>
      intro q
      exact ⟨q, rfl, le_refl _, fun j hj => absurd hj (by simp), Or.inl rfl⟩
  | cons p rest ih =>
      intro q
      by_cases hc : dist p.2.1 p.2.2 < q.2
      · obtain ⟨res, heq, hle, hallmin, hcase⟩ := ih (p.1, dist p.2.1 p.2.2)
        have hstep : scanStep dist (some q) p = some (p.1, dist p.2.1 p.2.2) := by
          simp [scanStep, hc]
        refine ⟨res, ?_, ?_, ?_, ?_⟩
        · rw [List.foldl_cons, hstep]; exact heq
        · exact le_of_lt (lt_of_le_of_lt hle hc)
        · intro j hj
          match j with
          | 0 => simpa using hle
          | k + 1 =>
              have hk : k < rest.length := by simpa using Nat.lt_of_succ_lt_succ hj
              simpa using hallmin k hk
        · rcases hcase with rfl | ⟨j, hj, hres, hlt, hfirst⟩
          · refine Or.inr ⟨0, by simp, by simp, hc, fun k hk hk0 => absurd hk0 (by omega)⟩
          · refine Or.inr ⟨j + 1, by simpa using Nat.succ_lt_succ hj, by simpa using hres,
              lt_trans hlt hc, ?_⟩
            intro k hk hkj
            match k with
            | 0 => simpa using hlt
            | k' + 1 =>
                have hk' : k' < rest.length := by simpa using Nat.lt_of_succ_lt_succ hk
                simpa using hfirst k' hk' (by omega)
      · obtain ⟨res, heq, hle, hallmin, hcase⟩ := ih q
        have hstep : scanStep dist (some q) p = some q := by
          simp [scanStep, hc]
        refine ⟨res, ?_, hle, ?_, ?_⟩
        · rw [List.foldl_cons, hstep]; exact heq
        · intro j hj
          match j with
          | 0 => simpa using le_trans hle (not_lt.mp hc)
          | k + 1 =>
              have hk : k < rest.length := by simpa using Nat.lt_of_succ_lt_succ hj
              simpa using hallmin k hk
        · rcases hcase with rfl | ⟨j, hj, hres, hlt, hfirst⟩
          · exact Or.inl rfl
          · refine Or.inr ⟨j + 1, by simpa using Nat.succ_lt_succ hj, by simpa using hres,
              hlt, ?_⟩
            intro k hk hkj
            match k with
            | 0 => simpa using lt_of_lt_of_le hlt (not_lt.mp hc)
            | k' + 1 =>
                have hk' : k' < rest.length := by simpa using Nat.lt_of_succ_lt_succ hk
                simpa using hfirst k' hk' (by omega)

/-- Claim C9 (counterexample): with a single station at distance 2 km
whose logical name is the empty string, the handler reports no match
even though the nearest station is well within 5 km — the JavaScript
truthiness test `closestStation &&` rejects an empty-string name — so
the claim does not hold for every non-empty station map. -/
theorem nearest_empty_name_cex :
    nearestScan (fun _ _ => (2 : ℚ)) [("", 0, 0)] = some ("", 2) ∧
    apiNearest (fun _ _ => (2 : ℚ)) [("", 0, 0)] = none ∧
    ((2 : ℚ) < 5) := by
  exact ⟨rfl, by decide, by decide⟩

/-- Claim C9 (amended): for every distance function and non-empty
station list, the scan returns the first station attaining the minimum
distance; the handler then answers that station when its distance is
strictly below 5 km and its name is a non-empty string, and answers no
match when the minimum distance is at least 5 km or the winning name is
empty. -/
theorem nearest_scan_threshold (dist : Int → Int → ℚ)
    (sts : List (String × Int × Int)) (hne : sts ≠ []) :
    (∃ i, ∃ hi : i < sts.length,
        nearestScan dist sts = some ((sts[i]).1, dist (sts[i]).2.1 (sts[i]).2.2) ∧
        (∀ j (hj : j < sts.length),
            dist (sts[i]).2.1 (sts[i]).2.2 ≤ dist (sts[j]).2.1 (sts[j]).2.2) ∧
        (∀ j (hj : j < sts.length), j < i →
            dist (sts[i]).2.1 (sts[i]).2.2 < dist (sts[j]).2.1 (sts[j]).2.2)) ∧
    (∀ (n : String) (dv : ℚ), nearestScan dist sts = some (n, dv) →
        (5 ≤ dv → apiNearest dist sts = none) ∧
        (dv < 5 → n ≠ "" → apiNearest dist sts = some (n, dv)) ∧
        (n = "" → apiNearest dist sts = none)) := by
  constructor
  · match sts, hne with
    | p :: rest, _ =>
        obtain ⟨res, heq, hle, hallmin, hcase⟩ := scan_go dist rest (p.1, dist p.2.1 p.2.2)
        have hscan : nearestScan dist (p :: rest) = some res := by
          unfold nearestScan
          rw [List.foldl_cons]
          exact heq
        rcases hcase with rfl | ⟨j, hj, hres, hlt, hfirst⟩
        · refine ⟨0, by simp, by simpa using hscan, ?_, fun j hj hj0 => absurd hj0 (by omega)⟩
          intro j hj
          match j with
          | 0 => simp
          | k + 1 =>
              have hk : k < rest.length := by simpa using Nat.lt_of_succ_lt_succ hj
              simpa using hallmin k hk
        · subst hres
          refine ⟨j + 1, by simpa using Nat.succ_lt_succ hj, ?_, ?_, ?_⟩
          · rw [hscan]
            simp
          · intro k hk
            match k with
            | 0 =>
                simp only [List.getElem_cons_succ, List.getElem_cons_zero]
                exact le_of_lt (by simpa using hlt)
            | k' + 1 =>
                have hk' : k' < rest.length := by simpa using Nat.lt_of_succ_lt_succ hk
                simpa using hallmin k' hk'
          · intro k hk hkj
            match k with
            | 0 => simpa using hlt
            | k' + 1 =>
                have hk' : k' < rest.length := by simpa using Nat.lt_of_succ_lt_succ hk
                simpa using hfirst k' hk' (by omega)
  · intro n dv h
    have ha : apiNearest dist sts =
        if n ≠ "" ∧ dv < 5 then some (n, dv) else none := by
      unfold apiNearest
      rw [h]
    refine ⟨fun h5 => ?_, fun h5 hn => ?_, fun hn => ?_⟩
    · rw [ha, if_neg (fun hc => absurd hc.2 (not_lt.mpr h5))]
    · rw [ha, if_pos ⟨hn, h5⟩]
    · rw [ha, if_neg (fun hc => hc.1 hn)]

theorem nearest_scan_threshold_witness :
    apiNearest (fun la _ => if la = 1 then (2 : ℚ) else 9) [("X", 1, 1), ("Y", 3, 0)] =
      some ("X", 2) ∧
    apiNearest (fun _ _ => (6 : ℚ)) [("X", 1, 1)] = none := by
  refine ⟨?_, ?_⟩
  · exact ((nearest_scan_threshold (fun la _ => if la = 1 then (2 : ℚ) else 9)
      [("X", 1, 1), ("Y", 3, 0)] (by decide)).2 "X" 2 (by decide)).2.1
      (by decide) (by decide)
  · exact ((nearest_scan_threshold (fun _ _ => (6 : ℚ)) [("X", 1, 1)]
      (by decide)).2 "X" 6 (by decide)).1 (by decide)

end ZetDisplay
